import Mathlib

/-!
# kubo: the odds reshaper of `main.go`

A shallow embedding of `main.go` (package `main`): the record types, the join
loop of `fetchAndBuild` that turns the flat event and participant lists into the
sport → country → tournament → matches hierarchy, the decode loop that splits
the upstream envelope, the refresh cycle of `main` as a step on an explicit
Redis state, and the JSON encoding used by `saveToRedis` and `loadFromRedis`.

Go strings are modelled by `String`.  Every string the program handles comes
out of `encoding/json`, which yields valid UTF-8 only, and on valid UTF-8 the
byte-wise prefix test of `strings.HasPrefix` and the byte-wise key order of
`json.Marshal` coincide with the prefix test and the lexicographic order on the
lists of code points.

A Go `map[string]V` is modelled by its list of entries kept in strictly
increasing key order: a canonical form, so that two maps with the same entries
are equal, and the order in which `json.Marshal` writes the keys.
-/

namespace Kubo

/-! ## Go maps with string keys -/

/-- A non-nil Go `map[string]V`: the entries, in strictly increasing key order. -/
abbrev GoMap (V : Type) := List (String × V)

namespace GoMap

/-- The value of `make(map[string]V)`. -/
def empty {V : Type} : GoMap V := []

/-- The comma-ok read `v, ok := m[k]`: `none` when the key is absent. -/
def get {V : Type} : GoMap V → String → Option V
  | [], _ => none
  | (k', v) :: m, k => if k' = k then some v else get m k

/-- The assignment `m[k] = v`: replaces the entry of `k` or adds one. -/
def set {V : Type} : GoMap V → String → V → GoMap V
  | [], k, v => [(k, v)]
  | (k', v') :: m, k, v =>
    if k.data < k'.data then (k, v) :: (k', v') :: m
    else if k = k' then (k, v) :: m
    else (k', v') :: set m k v

/-- The keys of the map. -/
def keys {V : Type} (m : GoMap V) : List String := m.map Prod.fst

/-- The representation invariant: keys strictly increasing (hence distinct). -/
def WF {V : Type} (m : GoMap V) : Prop :=
  List.Pairwise (fun a b => a.data < b.data) (keys m)

end GoMap

/-! ## The record types of `main.go` -/

/-- The struct `RawEvent`; `Type_` is the Go field `Type`. -/
structure RawEvent where
  Type_ : String
  ID : String
  NA : String
  L1 : String
  L2 : String
  L3 : String
  SS : String
deriving DecidableEq

/-- The struct `Participant`; `Type_` is the Go field `Type`. -/
structure Participant where
  Type_ : String
  ID : String
  NA : String
  OD : String
deriving DecidableEq

/-- The struct `Match`.  `Odds` is a Go map value, which may be nil: `none` is the
nil map and `some m` a map made by `make`. -/
structure Match where
  MatchName : String
  Time : String
  Odds : Option (GoMap String)
deriving DecidableEq

/-- The type `map[string]map[string]map[string][]Match` returned by
`fetchAndBuild`, for a non-nil value with non-nil inner maps. -/
abbrev Hierarchy := GoMap (GoMap (GoMap (List Match)))

/-- The constant `redisKey`. -/
def redisKey : String := "matches"

/-- The constant `cacheTTL` (`5 * time.Minute`), in seconds. -/
def cacheTTL : Nat := 5 * 60

/-! ## The join loop of `fetchAndBuild` (lines 130-161) -/

/-- The library function `strings.HasPrefix(s, prefix)`. -/
def HasPrefix (s pre : String) : Bool := pre.data.isPrefixOf s.data

/-- The inner loop (lines 133-139): starting from `make(map[string]string)`, every
participant whose `ID` has the event's `ID` as a prefix assigns
`odds[pa.NA] = pa.OD`, in input order. -/
def buildOdds (participants : List Participant) (ev : RawEvent) : GoMap String :=
  participants.foldl
    (fun odds pa => if HasPrefix pa.ID ev.ID then GoMap.set odds pa.NA pa.OD else odds)
    GoMap.empty

/-- The struct literal of lines 152-156. -/
def mkMatch (participants : List Participant) (ev : RawEvent) : Match :=
  { MatchName := ev.NA, Time := ev.SS, Odds := some (buildOdds participants ev) }

/-- The read `result[sport]`: a missing key reads as the zero value, the nil map,
which has no key and is represented by the empty map. -/
def lookup1 (result : Hierarchy) (sport : String) : GoMap (GoMap (List Match)) :=
  (GoMap.get result sport).getD GoMap.empty

/-- The read `result[sport][country]`. -/
def lookup2 (result : Hierarchy) (sport country : String) : GoMap (List Match) :=
  (GoMap.get (lookup1 result sport) country).getD GoMap.empty

/-- The read `result[sport][country][tournament]`; the zero slice is empty. -/
def lookup3 (result : Hierarchy) (sport country tournament : String) : List Match :=
  (GoMap.get (lookup2 result sport country) tournament).getD []

/-- The comma-ok read `v, ok := m.Odds[name]`; a nil map has no key. -/
def Match.oddsOf (m : Match) (name : String) : Option String :=
  match m.Odds with
  | none => none
  | some odds => GoMap.get odds name

/-- One iteration of the loop over `events` (lines 132-159). -/
def joinStep (participants : List Participant) (result : Hierarchy) (ev : RawEvent) :
    Hierarchy :=
  let sport := ev.L1
  let country := ev.L3
  let tournament := ev.L2
  -- if result[sport] == nil { result[sport] = make(...) }
  let result1 :=
    if GoMap.get result sport = none then GoMap.set result sport GoMap.empty else result
  let bySport := (GoMap.get result1 sport).getD GoMap.empty
  -- if result[sport][country] == nil { result[sport][country] = make(...) }
  let bySport1 :=
    if GoMap.get bySport country = none then GoMap.set bySport country GoMap.empty
    else bySport
  let byCountry := (GoMap.get bySport1 country).getD GoMap.empty
  let m := mkMatch participants ev
  -- result[sport][country][tournament] = append(result[sport][country][tournament], match)
  let byCountry1 :=
    GoMap.set byCountry tournament ((GoMap.get byCountry tournament).getD [] ++ [m])
  GoMap.set result1 sport (GoMap.set bySport1 country byCountry1)

/-- The join loop of `fetchAndBuild`: from `make(...)`, one `joinStep` per event. -/
def join (events : List RawEvent) (participants : List Participant) : Hierarchy :=
  events.foldl (joinStep participants) GoMap.empty

/-- The number of `Match` values stored in a hierarchy. -/
def totalMatches (result : Hierarchy) : Nat :=
  (result.map fun s => (s.2.map fun c => (c.2.map fun t => t.2.length).sum).sum).sum

/-- The representation invariant of a hierarchy, level by level. -/
def HWF (r : Hierarchy) : Prop :=
  GoMap.WF r ∧ (∀ s, GoMap.WF (lookup1 r s)) ∧ ∀ s c, GoMap.WF (lookup2 r s c)

/-- The event of the scenario. -/
def scenarioEvent : RawEvent :=
  { Type_ := "EV", ID := "1", NA := "A vs B", L1 := "Soccer", L2 := "Premier",
    L3 := "England", SS := "LIVE 10'" }

/-- The first participant of the scenario. -/
def scenarioA : Participant := { Type_ := "PA", ID := "1-1", NA := "A", OD := "1.5" }

/-- The second participant of the scenario. -/
def scenarioB : Participant := { Type_ := "PA", ID := "1-2", NA := "B", OD := "2.1" }

/-- A participant of the scenario's event that is named "A" too, with other odds. -/
def rivalA : Participant := { Type_ := "PA", ID := "1-2", NA := "A", OD := "2.0" }

/-- A participant of another event, with the name and the odds of `scenarioA`. -/
def strangerA : Participant := { Type_ := "PA", ID := "2-1", NA := "A", OD := "1.5" }

/-! ## The decode loop of `fetchAndBuild` (lines 98-128) -/

/-- The four uses of `json.Unmarshal` in `fetchAndBuild`, each with `none` for a
returned error: the envelope into `APIResponse` (yielding its `Results`), an item
into the `preview` struct (yielding its `Type`), an item into `RawEvent`, and an
item into `Participant`.  `Body` stands for the response body and `Item` for a
`json.RawMessage`. -/
structure Unmarshal (Body Item : Type) where
  apiResponse : Body → Option (List (List Item))
  preview : Item → Option String
  rawEvent : Item → Option RawEvent
  participant : Item → Option Participant

/-- The body of the inner loop (lines 109-126) on the pair `(events, participants)`. -/
def decodeItem {Body Item : Type} (u : Unmarshal Body Item)
    (acc : List RawEvent × List Participant) (item : Item) :
    List RawEvent × List Participant :=
  match u.preview item with
  | none => acc
  | some ty =>
    if ty = "EV" then
      match u.rawEvent item with
      | some ev => (acc.1 ++ [ev], acc.2)
      | none => acc
    else if ty = "PA" then
      match u.participant item with
      | some pa => (acc.1, acc.2 ++ [pa])
      | none => acc
    else acc

/-- The decode loop (lines 104-128) over the blocks of `apiResp.Results`. -/
def decodeLoop {Body Item : Type} (u : Unmarshal Body Item) (results : List (List Item)) :
    List RawEvent × List Participant :=
  results.foldl (fun acc block => block.foldl (decodeItem u) acc) ([], [])

/-- What the request of lines 84-86 gives after the client's retries: an error, or
a response with its status code and body. -/
inductive Response (Body : Type) where
  | transportError
  | http (status : Int) (body : Body)

/-- The function `fetchAndBuild`, on the outcome of its request; `none` is the nil
map. -/
def fetchAndBuild {Body Item : Type} (u : Unmarshal Body Item) (resp : Response Body) :
    Option Hierarchy :=
  match resp with
  | .transportError => none
  | .http status body =>
    if status ≠ 200 then none
    else
      match u.apiResponse body with
      | none => none
      | some results =>
        let decoded := decodeLoop u results
        some (join decoded.1 decoded.2)

/-! ## JSON documents and `encoding/json` on the types of `main.go` -/

/-- A JSON document: what a JSON text denotes.  A `json.RawMessage` filled in by a
successful `json.Unmarshal` holds a valid JSON text, hence a document. -/
inductive JSON where
  | null
  | bool (b : Bool)
  | number (literal : String)
  | string (s : String)
  | array (elems : List JSON)
  | object (members : List (String × JSON))

/-- Case folding of one character as `encoding/json` does it when it compares an
object key with a field name made of ASCII letters and digits. -/
def foldChar (c : Char) : Char :=
  if c = Char.ofNat 0x17F then 'S'
  else if c = Char.ofNat 0x212A then 'K'
  else c.toUpper

/-- Whether the object key `key` selects the struct field tagged `name`. -/
def fieldIs (name key : String) : Bool :=
  key.data.map foldChar == name.data.map foldChar

/-- Unmarshal into a Go `string` holding `old`. -/
def unmarshalString (old : String) : JSON → Option String
  | .string s => some s
  | .null => some old
  | _ => none

/-- Unmarshal into a Go slice holding `old`, the elements decoded by `elem`; a nil
slice is represented by the empty list. -/
def unmarshalSlice {V : Type} (elem : JSON → Option V) (old : List V) :
    JSON → Option (List V)
  | .array elems => elems.mapM elem
  | .null => some old
  | _ => none

/-- Unmarshal into a Go `map[string]V` holding `old` (`none` for nil), each element
decoded by `elem` from the zero value: a nil map is allocated, and the members are
assigned in the order of the text. -/
def unmarshalMap {V : Type} (elem : JSON → Option V) (old : Option (GoMap V)) :
    JSON → Option (Option (GoMap V))
  | .object members =>
    (members.foldl
      (fun acc kv => acc.bind fun m => (elem kv.2).map fun v => GoMap.set m kv.1 v)
      (some (old.getD GoMap.empty))).map some
  | .null => some old
  | _ => none

/-- The final value of the string field tagged `name` after the members of an object
have been stored into a zero struct, or `none` when one of them has the wrong type. -/
def unmarshalField (name : String) (members : List (String × JSON)) : Option String :=
  members.foldl
    (fun acc kv => acc.bind fun old => if fieldIs name kv.1 then unmarshalString old kv.2
      else some old)
    (some "")

/-- The call `json.Unmarshal(item, &preview)` of line 112, yielding `preview.Type`. -/
def unmarshalPreview : JSON → Option String
  | .object members => unmarshalField "type" members
  | .null => some ""
  | _ => none

/-- The call `json.Unmarshal(item, &ev)` of line 118. -/
def unmarshalRawEvent : JSON → Option RawEvent
  | .object members => do
    let ty ← unmarshalField "type" members
    let id ← unmarshalField "ID" members
    let na ← unmarshalField "NA" members
    let l1 ← unmarshalField "L1" members
    let l2 ← unmarshalField "L2" members
    let l3 ← unmarshalField "L3" members
    let ss ← unmarshalField "SS" members
    pure { Type_ := ty, ID := id, NA := na, L1 := l1, L2 := l2, L3 := l3, SS := ss }
  | .null => some { Type_ := "", ID := "", NA := "", L1 := "", L2 := "", L3 := "", SS := "" }
  | _ => none

/-- The call `json.Unmarshal(item, &pa)` of line 123. -/
def unmarshalParticipant : JSON → Option Participant
  | .object members => do
    let ty ← unmarshalField "type" members
    let id ← unmarshalField "ID" members
    let na ← unmarshalField "NA" members
    let od ← unmarshalField "OD" members
    pure { Type_ := ty, ID := id, NA := na, OD := od }
  | .null => some { Type_ := "", ID := "", NA := "", OD := "" }
  | _ => none

/-- The call `json.Unmarshal(resp.Body(), &apiResp)` of line 99, yielding
`apiResp.Results`; the body is given by the document it denotes, `none` when it is
not a JSON text. -/
def unmarshalAPIResponse : Option JSON → Option (List (List JSON))
  | some (.object members) =>
    members.foldl
      (fun acc kv => acc.bind fun old =>
        if fieldIs "results" kv.1 then unmarshalSlice (unmarshalSlice some []) old kv.2
        else some old)
      (some [])
  | some .null => some []
  | _ => none

/-- The decoders of `encoding/json` on documents. -/
def encodingJson : Unmarshal (Option JSON) JSON where
  apiResponse := unmarshalAPIResponse
  preview := unmarshalPreview
  rawEvent := unmarshalRawEvent
  participant := unmarshalParticipant

/-- The encoding `json.Marshal` gives a `map[string]string`: `null` for nil, else an
object with the keys in increasing order. -/
def marshalOdds : Option (GoMap String) → JSON
  | none => .null
  | some odds => .object (odds.map fun kv => (kv.1, .string kv.2))

/-- The encoding `json.Marshal` gives a `Match`, by its field tags. -/
def marshalMatch (m : Match) : JSON :=
  .object [("match", .string m.MatchName), ("time", .string m.Time),
    ("odds", marshalOdds m.Odds)]

/-- The encoding `json.Marshal` gives the hierarchy. -/
def marshalHierarchy (data : Hierarchy) : JSON :=
  .object (data.map fun s => (s.1,
    .object (s.2.map fun c => (c.1,
      .object (c.2.map fun t => (t.1, .array (t.2.map marshalMatch)))))))

/-- Unmarshal into a zero `Match`. -/
def unmarshalMatch : JSON → Option Match
  | .object members =>
    members.foldl
      (fun acc kv => acc.bind fun m =>
        if fieldIs "match" kv.1 then
          (unmarshalString m.MatchName kv.2).map fun s => { m with MatchName := s }
        else if fieldIs "time" kv.1 then
          (unmarshalString m.Time kv.2).map fun s => { m with Time := s }
        else if fieldIs "odds" kv.1 then
          (unmarshalMap (unmarshalString "") m.Odds kv.2).map fun o => { m with Odds := o }
        else some m)
      (some { MatchName := "", Time := "", Odds := none })
  | .null => some { MatchName := "", Time := "", Odds := none }
  | _ => none

/-- Unmarshal into a map that is the element of an enclosing map; a nil inner map is
represented by the empty one. -/
def unmarshalInner {V : Type} (elem : JSON → Option V) (doc : JSON) : Option (GoMap V) :=
  (unmarshalMap elem none doc).map fun m => m.getD GoMap.empty

/-- The call `json.Unmarshal([]byte(val), target)` of `loadFromRedis` for a target of
type `map[string]map[string]map[string][]Match` that is nil, as in the handler of
`/structured`. -/
def unmarshalHierarchy (doc : JSON) : Option (Option Hierarchy) :=
  unmarshalMap (unmarshalInner (unmarshalInner (unmarshalSlice unmarshalMatch []))) none doc

/-! ## Redis and the refresh cycle of `main` -/

/-- The state of the Redis client: the stored documents with their time to live in
seconds, and the calls of `saveToRedis` made so far. -/
structure State where
  redis : GoMap (JSON × Nat)
  saves : List (String × Hierarchy)

/-- The function `saveToRedis` for a hierarchy; `setOk` tells whether the `Set`
command succeeds.  `json.Marshal` has no error on this type. -/
def saveToRedis (setOk : Bool) (key : String) (data : Hierarchy) (s : State) : State :=
  let jsonData := marshalHierarchy data
  { redis := if setOk then GoMap.set s.redis key (jsonData, cacheTTL) else s.redis,
    saves := s.saves ++ [(key, data)] }

/-- The function `loadFromRedis` for a nil target of the hierarchy type: `none` is a
returned error, else the target after the call. -/
def loadFromRedis (s : State) (key : String) : Option (Option Hierarchy) :=
  match GoMap.get s.redis key with
  | none => none
  | some val => unmarshalHierarchy val.1

/-- One iteration of the background loop of `main` (lines 190-194). -/
def refreshCycle {Body Item : Type} (u : Unmarshal Body Item) (resp : Response Body)
    (setOk : Bool) (s : State) : State :=
  match fetchAndBuild u resp with
  | some data => saveToRedis setOk redisKey data s
  | none => s

/-! ## Sample documents -/

/-- The event of the scenario as an item of the upstream envelope. -/
def scenarioEventItem : JSON :=
  .object [("type", .string "EV"), ("ID", .string "1"), ("NA", .string "A vs B"),
    ("L1", .string "Soccer"), ("L2", .string "Premier"), ("L3", .string "England"),
    ("SS", .string "LIVE 10'")]

/-- The first participant of the scenario as an item of the upstream envelope. -/
def scenarioAItem : JSON :=
  .object [("type", .string "PA"), ("ID", .string "1-1"), ("NA", .string "A"),
    ("OD", .string "1.5")]

/-- An item tagged as an event whose `ID` is a number, not a string. -/
def malformedItem : JSON :=
  .object [("type", .string "EV"), ("ID", .number "7")]

/-- An envelope with one block: the participant, the malformed item, the event. -/
def scenarioEnvelope : JSON :=
  .object [("results", .array [.array [scenarioAItem, malformedItem, scenarioEventItem]])]

/-- A Redis state that holds the hierarchy of the scenario under the key `matches`. -/
def scenarioState : State :=
  { redis := [(redisKey,
      (marshalHierarchy (join [scenarioEvent] [scenarioA, scenarioB]), cacheTTL))],
    saves := [] }

/-! ## Facts on Go maps -/

namespace GoMap

theorem get_set {V : Type} (m : GoMap V) (k k' : String) (v : V) :
    get (set m k v) k' = if k = k' then some v else get m k' := by
  induction m with
  | nil => simp [set, get]
  | cons e m ih =>
    obtain ⟨a, b⟩ := e
    by_cases h1 : k.data < a.data
    · simp [set, get, h1]
    · by_cases h2 : k = a
      · subst h2
        by_cases h3 : k = k' <;> simp [set, get, h3]
      · by_cases h3 : a = k'
        · subst h3
          simp [set, get, h1, h2]
        · simp [set, get, h1, h2, h3, ih]

theorem get_set_self {V : Type} (m : GoMap V) (k : String) (v : V) :
    get (set m k v) k = some v := by
  simp [get_set]

theorem get_set_of_ne {V : Type} (m : GoMap V) {k k' : String} (v : V) (h : k ≠ k') :
    get (set m k v) k' = get m k' := by
  simp [get_set, h]

theorem mem_of_get {V : Type} {m : GoMap V} {k : String} {v : V} (h : get m k = some v) :
    (k, v) ∈ m := by
  induction m with
  | nil => simp [get] at h
  | cons e m ih =>
    obtain ⟨a, b⟩ := e
    by_cases h1 : a = k
    · subst h1
      simp [get] at h
      simp [h]
    · simp [get, h1] at h
      exact List.mem_cons_of_mem _ (ih h)

theorem get_eq_none_iff {V : Type} (m : GoMap V) (k : String) :
    get m k = none ↔ k ∉ keys m := by
  induction m with
  | nil => simp [get, keys]
  | cons e m ih =>
    obtain ⟨a, b⟩ := e
    by_cases h1 : a = k
    · subst h1
      simp [get, keys]
    · have h2 : ¬ k = a := fun h => h1 h.symm
      simpa [get, keys, h1, h2] using ih

theorem mem_keys_iff_get {V : Type} (m : GoMap V) (k : String) :
    k ∈ keys m ↔ ∃ v, get m k = some v := by
  rcases h : get m k with _ | v
  · simp [(get_eq_none_iff m k).mp h]
  · have : ¬ k ∉ keys m := fun h' => by
      rw [(get_eq_none_iff m k).mpr h'] at h
      exact Option.noConfusion h
    simp [not_not.mp this]

theorem mem_set {V : Type} {m : GoMap V} {k : String} {v : V} {e : String × V}
    (h : e ∈ set m k v) : e = (k, v) ∨ e ∈ m := by
  induction m with
  | nil => simpa [set] using h
  | cons e' m ih =>
    obtain ⟨a, b⟩ := e'
    by_cases h1 : k.data < a.data
    · simp [set, h1] at h
      rcases h with h | h | h
      · exact Or.inl h
      · exact Or.inr (by simp [h])
      · exact Or.inr (List.mem_cons_of_mem _ h)
    · by_cases h2 : k = a
      · simp [set, h1, h2] at h
        rcases h with h | h
        · exact Or.inl (by simp [h, h2])
        · exact Or.inr (List.mem_cons_of_mem _ h)
      · simp [set, h1, h2] at h
        rcases h with h | h
        · exact Or.inr (by simp [h])
        · rcases ih h with h | h
          · exact Or.inl h
          · exact Or.inr (List.mem_cons_of_mem _ h)

theorem mem_keys_set {V : Type} (m : GoMap V) (k k' : String) (v : V) :
    k' ∈ keys (set m k v) ↔ k' = k ∨ k' ∈ keys m := by
  rw [mem_keys_iff_get, mem_keys_iff_get, get_set]
  by_cases h : k = k'
  · simp [h]
  · have h' : ¬ k' = k := fun e => h e.symm
    simp [h, h']

theorem set_set {V : Type} (m : GoMap V) (k : String) (v v' : V) :
    set (set m k v) k v' = set m k v' := by
  induction m with
  | nil => simp [set]
  | cons e m ih =>
    obtain ⟨a, b⟩ := e
    by_cases h1 : k.data < a.data
    · simp [set, h1]
    · by_cases h2 : k = a
      · subst h2
        simp [set]
      · simp [set, h1, h2, ih]

theorem wf_nil {V : Type} : WF (empty : GoMap V) := by
  simp [WF, keys, empty]

theorem wf_cons {V : Type} (a : String) (b : V) (m : GoMap V) :
    WF ((a, b) :: m) ↔ (∀ k ∈ keys m, a.data < k.data) ∧ WF m := by
  simp [WF, keys]

theorem wf_set {V : Type} {m : GoMap V} (h : WF m) (k : String) (v : V) :
    WF (set m k v) := by
  induction m with
  | nil => simp [set, WF, keys]
  | cons e m ih =>
    obtain ⟨a, b⟩ := e
    rw [wf_cons] at h
    by_cases h1 : k.data < a.data
    · simp only [set, h1, if_true]
      rw [wf_cons, wf_cons]
      refine ⟨?_, h⟩
      intro x hx
      simp only [keys, List.map_cons, List.mem_cons] at hx
      rcases hx with hx | hx
      · simpa [hx] using h1
      · exact lt_trans h1 (h.1 x hx)
    · by_cases h2 : k = a
      · subst h2
        simp only [set, h1, if_false, if_true]
        rw [wf_cons]
        exact h
      · simp only [set, h1, h2, if_false]
        rw [wf_cons]
        refine ⟨?_, ih h.2⟩
        intro x hx
        rcases (mem_keys_set m k x v).mp hx with hx | hx
        · rw [hx]
          have h3 : k.data ≠ a.data := fun e => h2 (String.ext e)
          exact lt_of_le_of_ne (not_lt.mp h1) (Ne.symm h3)
        · exact h.1 x hx

theorem nodup_keys {V : Type} {m : GoMap V} (h : WF m) : (keys m).Nodup := by
  unfold WF at h
  exact h.imp fun {a b} hab e => by
    rw [e] at hab
    exact lt_irrefl _ hab

theorem get_of_mem {V : Type} {m : GoMap V} (h : WF m) {k : String} {v : V}
    (hm : (k, v) ∈ m) : get m k = some v := by
  induction m with
  | nil => simp at hm
  | cons e m ih =>
    obtain ⟨a, b⟩ := e
    rw [wf_cons] at h
    rcases List.mem_cons.mp hm with hm | hm
    · obtain ⟨rfl, rfl⟩ := Prod.mk.inj hm
      simp [get]
    · have hk : k ∈ keys m := List.mem_map.mpr ⟨(k, v), hm, rfl⟩
      have hne : a ≠ k := fun e => by
        have := h.1 k hk
        rw [e] at this
        exact lt_irrefl _ this
      simp [get, hne, ih h.2 hm]

/-- Adding a key larger than all the keys of a map puts its entry last. -/
theorem set_last {V : Type} (m : GoMap V) (k : String) (v : V)
    (h : ∀ x ∈ keys m, x.data < k.data) : set m k v = m ++ [(k, v)] := by
  induction m with
  | nil => simp [set]
  | cons e m ih =>
    obtain ⟨a, b⟩ := e
    have ha : a.data < k.data := h a (by simp [keys])
    have h1 : ¬ k.data < a.data := not_lt.mpr (le_of_lt ha)
    have h2 : ¬ k = a := fun e => by
      rw [e] at ha
      exact lt_irrefl _ ha
    have h3 : ∀ x ∈ keys m, x.data < k.data := fun x hx =>
      h x (by simp [keys] at hx ⊢; exact Or.inr hx)
    simp [set, h1, h2, ih h3]

/-- How an assignment changes a sum taken over the values of a map. -/
theorem sum_set {V : Type} (f : V → Nat) {m : GoMap V} (h : WF m) (k : String) (v : V) :
    ((set m k v).map fun e => f e.2).sum + ((get m k).map f).getD 0 =
      (m.map fun e => f e.2).sum + f v := by
  induction m with
  | nil => simp [set, get]
  | cons e m ih =>
    obtain ⟨a, b⟩ := e
    rw [wf_cons] at h
    by_cases h1 : k.data < a.data
    · have hn : get ((a, b) :: m) k = none := by
        rw [get_eq_none_iff]
        simp only [keys, List.map_cons, List.mem_cons, not_or]
        refine ⟨fun e => ?_, fun hx => ?_⟩
        · rw [e] at h1
          exact lt_irrefl _ h1
        · exact lt_irrefl _ (lt_trans h1 (h.1 k hx))
      rw [hn]
      simp [set, h1]
      omega
    · by_cases h2 : k = a
      · subst h2
        simp [set, get]
        omega
      · have h3 : ¬ a = k := fun e => h2 e.symm
        have := ih h.2
        simp only [set, h1, h2, if_false, get, h3, List.map_cons, List.sum_cons]
        omega

end GoMap

/-! ## The odds mapping of one event -/

/-- The participants that write the entry of the name `n` in the odds of `ev`. -/
theorem get_foldl_odds (ev : RawEvent) (n : String) (ps : List Participant)
    (acc : GoMap String) :
    GoMap.get (ps.foldl (fun odds pa =>
        if HasPrefix pa.ID ev.ID then GoMap.set odds pa.NA pa.OD else odds) acc) n =
      match (ps.filter fun p => HasPrefix p.ID ev.ID && p.NA == n).getLast? with
      | some p => some p.OD
      | none => GoMap.get acc n := by
  induction ps using List.reverseRecOn with
  | nil => simp
  | append_singleton ps p ih =>
    rw [List.foldl_append, List.filter_append]
    simp only [List.foldl_cons, List.foldl_nil]
    by_cases h1 : HasPrefix p.ID ev.ID = true
    · by_cases h2 : p.NA = n
      · simp [h1, h2, List.filter_cons, GoMap.get_set]
      · simp [h1, h2, List.filter_cons, GoMap.get_set, ih]
    · simp [h1, List.filter_cons, ih]

theorem get_buildOdds (ps : List Participant) (ev : RawEvent) (n : String) :
    GoMap.get (buildOdds ps ev) n =
      ((ps.filter fun p => HasPrefix p.ID ev.ID && p.NA == n).getLast?).map
        fun p => p.OD := by
  unfold buildOdds
  rw [get_foldl_odds]
  cases (ps.filter fun p => HasPrefix p.ID ev.ID && p.NA == n).getLast? <;>
    simp [GoMap.get, GoMap.empty]

theorem wf_buildOdds (ps : List Participant) (ev : RawEvent) :
    GoMap.WF (buildOdds ps ev) := by
  unfold buildOdds
  generalize hacc : (GoMap.empty : GoMap String) = acc
  have hwf : GoMap.WF acc := hacc ▸ GoMap.wf_nil
  clear hacc
  induction ps generalizing acc with
  | nil => simpa using hwf
  | cons p ps ih =>
    simp only [List.foldl_cons]
    apply ih
    split
    · exact GoMap.wf_set hwf _ _
    · exact hwf

theorem hasPrefix_iff (s pre : String) : HasPrefix s pre = true ↔ pre.data <+: s.data := by
  simp [HasPrefix]

/-! ## The join loop -/

/-- One iteration, as a single nested assignment. -/
theorem joinStep_eq (ps : List Participant) (r : Hierarchy) (ev : RawEvent) :
    joinStep ps r ev =
      GoMap.set r ev.L1 (GoMap.set (lookup1 r ev.L1) ev.L3
        (GoMap.set (lookup2 r ev.L1 ev.L3) ev.L2
          (lookup3 r ev.L1 ev.L3 ev.L2 ++ [mkMatch ps ev]))) := by
  unfold joinStep lookup3 lookup2 lookup1
  cases hr : GoMap.get r ev.L1 with
  | none => simp [hr, GoMap.get_set, GoMap.empty, GoMap.get, GoMap.set, GoMap.set_set]
  | some m =>
    cases hm : GoMap.get m ev.L3 with
    | none => simp [hr, hm, GoMap.get_set, GoMap.empty, GoMap.get, GoMap.set, GoMap.set_set]
    | some m2 => simp [hr, hm, GoMap.get_set, GoMap.empty, GoMap.get, GoMap.set]

/-- What one iteration stores under its sport key. -/
theorem get_joinStep (ps : List Participant) (r : Hierarchy) (ev : RawEvent) (s : String) :
    GoMap.get (joinStep ps r ev) s =
      if ev.L1 = s then
        some (GoMap.set (lookup1 r ev.L1) ev.L3
          (GoMap.set (lookup2 r ev.L1 ev.L3) ev.L2
            (lookup3 r ev.L1 ev.L3 ev.L2 ++ [mkMatch ps ev])))
      else GoMap.get r s := by
  rw [joinStep_eq, GoMap.get_set]

theorem lookup1_joinStep (ps : List Participant) (r : Hierarchy) (ev : RawEvent)
    (s : String) :
    lookup1 (joinStep ps r ev) s =
      if ev.L1 = s then
        GoMap.set (lookup1 r s) ev.L3
          (GoMap.set (lookup2 r s ev.L3) ev.L2 (lookup3 r s ev.L3 ev.L2 ++ [mkMatch ps ev]))
      else lookup1 r s := by
  rw [lookup1, get_joinStep]
  by_cases h : ev.L1 = s
  · subst h
    simp
  · simp [h, lookup1]

theorem lookup2_joinStep (ps : List Participant) (r : Hierarchy) (ev : RawEvent)
    (s c : String) :
    lookup2 (joinStep ps r ev) s c =
      if ev.L1 = s ∧ ev.L3 = c then
        GoMap.set (lookup2 r s c) ev.L2 (lookup3 r s c ev.L2 ++ [mkMatch ps ev])
      else lookup2 r s c := by
  rw [lookup2, lookup1_joinStep]
  by_cases h : ev.L1 = s
  · by_cases h2 : ev.L3 = c
    · subst h2
      simp [h, GoMap.get_set]
    · simp [h, h2, GoMap.get_set, lookup2]
  · simp [h, lookup2]

theorem lookup3_joinStep (ps : List Participant) (r : Hierarchy) (ev : RawEvent)
    (s c t : String) :
    lookup3 (joinStep ps r ev) s c t =
      lookup3 r s c t ++
        if ev.L1 = s ∧ ev.L3 = c ∧ ev.L2 = t then [mkMatch ps ev] else [] := by
  rw [lookup3, lookup2_joinStep]
  by_cases h : ev.L1 = s ∧ ev.L3 = c
  · by_cases h2 : ev.L2 = t
    · subst h2
      simp [h, GoMap.get_set, lookup3]
    · simp [h, h2, GoMap.get_set, lookup3]
  · have h' : ¬ (ev.L1 = s ∧ ev.L3 = c ∧ ev.L2 = t) := fun x => h ⟨x.1, x.2.1⟩
    simp only [h, h', if_false, List.append_nil, lookup3]

theorem lookup3_foldl (ps : List Participant) (evs : List RawEvent) (r : Hierarchy)
    (s c t : String) :
    lookup3 (evs.foldl (joinStep ps) r) s c t =
      lookup3 r s c t ++
        (evs.filter fun e => e.L1 = s ∧ e.L3 = c ∧ e.L2 = t).map (mkMatch ps) := by
  induction evs generalizing r with
  | nil => simp
  | cons e evs ih =>
    rw [List.foldl_cons, ih, lookup3_joinStep]
    by_cases h : e.L1 = s ∧ e.L3 = c ∧ e.L2 = t
    · simp [h, List.filter_cons]
    · simp [h, List.filter_cons]

theorem lookup3_join (evs : List RawEvent) (ps : List Participant) (s c t : String) :
    lookup3 (join evs ps) s c t =
      (evs.filter fun e => e.L1 = s ∧ e.L3 = c ∧ e.L2 = t).map (mkMatch ps) := by
  rw [join, lookup3_foldl]
  simp [lookup3, lookup2, lookup1, GoMap.get, GoMap.empty]

theorem hwf_empty : HWF GoMap.empty := by
  refine ⟨GoMap.wf_nil, fun s => ?_, fun s c => ?_⟩ <;>
    simp [lookup2, lookup1, GoMap.get, GoMap.empty, GoMap.WF, GoMap.keys]

theorem hwf_joinStep (ps : List Participant) {r : Hierarchy} (h : HWF r) (ev : RawEvent) :
    HWF (joinStep ps r ev) := by
  obtain ⟨h0, h1, h2⟩ := h
  refine ⟨?_, fun s => ?_, fun s c => ?_⟩
  · rw [joinStep_eq]
    exact GoMap.wf_set h0 _ _
  · rw [lookup1_joinStep]
    split
    · exact GoMap.wf_set (h1 s) _ _
    · exact h1 s
  · rw [lookup2_joinStep]
    split
    · exact GoMap.wf_set (h2 s c) _ _
    · exact h2 s c

theorem hwf_foldl (ps : List Participant) (evs : List RawEvent) {r : Hierarchy}
    (h : HWF r) : HWF (evs.foldl (joinStep ps) r) := by
  induction evs generalizing r with
  | nil => exact h
  | cons e evs ih => exact ih (hwf_joinStep ps h e)

theorem hwf_join (evs : List RawEvent) (ps : List Participant) : HWF (join evs ps) :=
  hwf_foldl ps evs hwf_empty

theorem totalMatches_joinStep (ps : List Participant) {r : Hierarchy} (h : HWF r)
    (ev : RawEvent) : totalMatches (joinStep ps r ev) = totalMatches r + 1 := by
  obtain ⟨h0, h1, h2⟩ := h
  rw [joinStep_eq]
  have e1 := GoMap.sum_set
    (fun m : GoMap (GoMap (List Match)) => (m.map fun c => (c.2.map fun t => t.2.length).sum).sum)
    h0 ev.L1 (GoMap.set (lookup1 r ev.L1) ev.L3
        (GoMap.set (lookup2 r ev.L1 ev.L3) ev.L2
          (lookup3 r ev.L1 ev.L3 ev.L2 ++ [mkMatch ps ev])))
  have e2 := GoMap.sum_set
    (fun m : GoMap (List Match) => (m.map fun t => t.2.length).sum)
    (h1 ev.L1) ev.L3 (GoMap.set (lookup2 r ev.L1 ev.L3) ev.L2
          (lookup3 r ev.L1 ev.L3 ev.L2 ++ [mkMatch ps ev]))
  have e3 := GoMap.sum_set (fun l : List Match => l.length)
    (h2 ev.L1 ev.L3) ev.L2 (lookup3 r ev.L1 ev.L3 ev.L2 ++ [mkMatch ps ev])
  have d1 : ((GoMap.get r ev.L1).map fun m : GoMap (GoMap (List Match)) =>
      (m.map fun c => (c.2.map fun t => t.2.length).sum).sum).getD 0 =
      ((lookup1 r ev.L1).map fun c => (c.2.map fun t => t.2.length).sum).sum := by
    unfold lookup1
    cases GoMap.get r ev.L1 <;> simp [GoMap.empty]
  have d2 : ((GoMap.get (lookup1 r ev.L1) ev.L3).map fun m : GoMap (List Match) =>
      (m.map fun t => t.2.length).sum).getD 0 =
      ((lookup2 r ev.L1 ev.L3).map fun t => t.2.length).sum := by
    unfold lookup2
    cases GoMap.get (lookup1 r ev.L1) ev.L3 <;> simp [GoMap.empty]
  have d3 : ((GoMap.get (lookup2 r ev.L1 ev.L3) ev.L2).map fun l : List Match =>
      l.length).getD 0 = (lookup3 r ev.L1 ev.L3 ev.L2).length := by
    unfold lookup3
    cases GoMap.get (lookup2 r ev.L1 ev.L3) ev.L2 <;> simp
  rw [d1] at e1
  rw [d2] at e2
  rw [d3] at e3
  simp only [List.length_append, List.length_singleton] at e3
  unfold totalMatches
  omega

theorem totalMatches_foldl (ps : List Participant) (evs : List RawEvent) {r : Hierarchy}
    (h : HWF r) : totalMatches (evs.foldl (joinStep ps) r) = totalMatches r + evs.length := by
  induction evs generalizing r with
  | nil => simp
  | cons e evs ih =>
    rw [List.foldl_cons, ih (hwf_joinStep ps h e), totalMatches_joinStep ps h]
    simp only [List.length_cons]
    omega

theorem totalMatches_join (evs : List RawEvent) (ps : List Participant) :
    totalMatches (join evs ps) = evs.length := by
  rw [join, totalMatches_foldl ps evs hwf_empty]
  simp [totalMatches, GoMap.empty]

/-! ## The keys of the hierarchy -/

theorem keys1_foldl (ps : List Participant) (evs : List RawEvent) (r : Hierarchy)
    (s : String) :
    s ∈ GoMap.keys (evs.foldl (joinStep ps) r) ↔
      s ∈ GoMap.keys r ∨ ∃ e ∈ evs, e.L1 = s := by
  induction evs generalizing r with
  | nil => simp
  | cons e evs ih =>
    rw [List.foldl_cons, ih, joinStep_eq, GoMap.mem_keys_set]
    simp only [List.mem_cons, exists_eq_or_imp]
    constructor
    · rintro ((h | h) | h)
      · exact Or.inr (Or.inl h.symm)
      · exact Or.inl h
      · exact Or.inr (Or.inr h)
    · rintro (h | h | h)
      · exact Or.inl (Or.inr h)
      · exact Or.inl (Or.inl h.symm)
      · exact Or.inr h

theorem keys2_foldl (ps : List Participant) (evs : List RawEvent) (r : Hierarchy)
    (s c : String) :
    c ∈ GoMap.keys (lookup1 (evs.foldl (joinStep ps) r) s) ↔
      c ∈ GoMap.keys (lookup1 r s) ∨ ∃ e ∈ evs, e.L1 = s ∧ e.L3 = c := by
  induction evs generalizing r with
  | nil => simp
  | cons e evs ih =>
    rw [List.foldl_cons, ih, lookup1_joinStep]
    simp only [List.mem_cons, exists_eq_or_imp]
    by_cases h1 : e.L1 = s
    · simp only [h1, if_true, GoMap.mem_keys_set, true_and]
      constructor
      · rintro ((h | h) | h)
        · exact Or.inr (Or.inl h.symm)
        · exact Or.inl h
        · exact Or.inr (Or.inr h)
      · rintro (h | h | h)
        · exact Or.inl (Or.inr h)
        · exact Or.inl (Or.inl h.symm)
        · exact Or.inr h
    · simp [h1]

theorem keys3_foldl (ps : List Participant) (evs : List RawEvent) (r : Hierarchy)
    (s c t : String) :
    t ∈ GoMap.keys (lookup2 (evs.foldl (joinStep ps) r) s c) ↔
      t ∈ GoMap.keys (lookup2 r s c) ∨ ∃ e ∈ evs, e.L1 = s ∧ e.L3 = c ∧ e.L2 = t := by
  induction evs generalizing r with
  | nil => simp
  | cons e evs ih =>
    rw [List.foldl_cons, ih, lookup2_joinStep]
    simp only [List.mem_cons, exists_eq_or_imp]
    by_cases h1 : e.L1 = s ∧ e.L3 = c
    · simp only [h1, if_true, GoMap.mem_keys_set, true_and, and_self]
      constructor
      · rintro ((h | h) | h)
        · exact Or.inr (Or.inl h.symm)
        · exact Or.inl h
        · exact Or.inr (Or.inr h)
      · rintro (h | h | h)
        · exact Or.inl (Or.inr h)
        · exact Or.inl (Or.inl h.symm)
        · exact Or.inr h
    · have h2 : ¬ (e.L1 = s ∧ e.L3 = c ∧ e.L2 = t) := fun x => h1 ⟨x.1, x.2.1⟩
      simp [h1, h2]

theorem keys1_join (evs : List RawEvent) (ps : List Participant) (s : String) :
    s ∈ GoMap.keys (join evs ps) ↔ ∃ e ∈ evs, e.L1 = s := by
  rw [join, keys1_foldl]
  simp [GoMap.keys, GoMap.empty]

theorem keys2_join (evs : List RawEvent) (ps : List Participant) (s c : String) :
    c ∈ GoMap.keys (lookup1 (join evs ps) s) ↔ ∃ e ∈ evs, e.L1 = s ∧ e.L3 = c := by
  rw [join, keys2_foldl]
  simp [GoMap.keys, GoMap.empty, lookup1, GoMap.get]

theorem keys3_join (evs : List RawEvent) (ps : List Participant) (s c t : String) :
    t ∈ GoMap.keys (lookup2 (join evs ps) s c) ↔
      ∃ e ∈ evs, e.L1 = s ∧ e.L3 = c ∧ e.L2 = t := by
  rw [join, keys3_foldl]
  simp [GoMap.keys, GoMap.empty, lookup1, lookup2, GoMap.get]

theorem ne_nil_of_mem_keys {V : Type} {m : GoMap V} {k : String} (h : k ∈ GoMap.keys m) :
    m ≠ [] := by
  intro e
  rw [e] at h
  simp [GoMap.keys] at h

theorem buildOdds_of_unmatched (ps : List Participant) (ev : RawEvent)
    (h : ∀ p ∈ ps, HasPrefix p.ID ev.ID = false) : buildOdds ps ev = GoMap.empty := by
  unfold buildOdds
  induction ps with
  | nil => rfl
  | cons p ps ih =>
    rw [List.foldl_cons, h p (by simp)]
    exact ih fun q hq => h q (by simp [hq])

/-! ## The decode loop -/

theorem decodeItem_eq {Body Item : Type} (u : Unmarshal Body Item)
    (acc : List RawEvent × List Participant) (item : Item) :
    decodeItem u acc item =
      (acc.1 ++ (if u.preview item = some "EV" then u.rawEvent item else none).toList,
        acc.2 ++ (if u.preview item = some "PA" then u.participant item else none).toList) := by
  unfold decodeItem
  cases hp : u.preview item with
  | none => simp
  | some ty =>
    by_cases h1 : ty = "EV"
    · subst h1
      cases u.rawEvent item <;> simp
    · by_cases h2 : ty = "PA"
      · subst h2
        cases u.participant item <;> simp
      · simp [h1, h2]

theorem foldl_decodeItem {Body Item : Type} (u : Unmarshal Body Item) (block : List Item)
    (acc : List RawEvent × List Participant) :
    block.foldl (decodeItem u) acc =
      (acc.1 ++ block.filterMap
          (fun item => if u.preview item = some "EV" then u.rawEvent item else none),
        acc.2 ++ block.filterMap
          (fun item => if u.preview item = some "PA" then u.participant item else none)) := by
  induction block generalizing acc with
  | nil => simp
  | cons item block ih =>
    rw [List.foldl_cons, ih, decodeItem_eq]
    cases h1 : (if u.preview item = some "EV" then u.rawEvent item else none) <;>
      cases h2 : (if u.preview item = some "PA" then u.participant item else none) <;>
      simp [List.filterMap_cons, h1, h2]

theorem foldl_blocks {Body Item : Type} (u : Unmarshal Body Item) (results : List (List Item))
    (acc : List RawEvent × List Participant) :
    results.foldl (fun acc block => block.foldl (decodeItem u) acc) acc =
      (acc.1 ++ results.flatten.filterMap
          (fun item => if u.preview item = some "EV" then u.rawEvent item else none),
        acc.2 ++ results.flatten.filterMap
          (fun item => if u.preview item = some "PA" then u.participant item else none)) := by
  induction results generalizing acc with
  | nil => simp
  | cons block results ih =>
    rw [List.foldl_cons, ih, foldl_decodeItem]
    simp [List.filterMap_append]

theorem decodeLoop_eq {Body Item : Type} (u : Unmarshal Body Item)
    (results : List (List Item)) :
    decodeLoop u results =
      (results.flatten.filterMap
          (fun item => if u.preview item = some "EV" then u.rawEvent item else none),
        results.flatten.filterMap
          (fun item => if u.preview item = some "PA" then u.participant item else none)) := by
  rw [decodeLoop, foldl_blocks]
  simp

/-! ## The JSON encoding of the hierarchy -/

theorem foldl_unmarshal_members {V : Type} (elem : JSON → Option V) (enc : V → JSON)
    (l : GoMap V) (acc : GoMap V) (hwf : GoMap.WF (acc ++ l))
    (helem : ∀ kv ∈ l, elem (enc kv.2) = some kv.2) :
    (l.map fun kv => (kv.1, enc kv.2)).foldl
        (fun acc kv => acc.bind fun m => (elem kv.2).map fun v => GoMap.set m kv.1 v)
        (some acc) = some (acc ++ l) := by
  induction l generalizing acc with
  | nil => simp
  | cons kv l ih =>
    have hlast : GoMap.set acc kv.1 kv.2 = acc ++ [kv] := by
      apply GoMap.set_last
      intro x hx
      unfold GoMap.WF GoMap.keys at hwf
      rw [List.map_append, List.pairwise_append] at hwf
      exact hwf.2.2 x hx kv.1 (by simp)
    simp only [List.map_cons, List.foldl_cons, Option.some_bind,
      helem kv (by simp), Option.map_some', hlast]
    rw [ih (acc ++ [kv]) (by simpa using hwf) (fun x hx => helem x (by simp [hx]))]
    simp

theorem unmarshalMap_object {V : Type} (elem : JSON → Option V) (enc : V → JSON)
    (m : GoMap V) (hwf : GoMap.WF m) (helem : ∀ kv ∈ m, elem (enc kv.2) = some kv.2) :
    unmarshalMap elem none (.object (m.map fun kv => (kv.1, enc kv.2))) = some (some m) := by
  simp only [unmarshalMap, Option.getD_none, GoMap.empty]
  rw [foldl_unmarshal_members elem enc m [] (by simpa using hwf) helem]
  simp

theorem unmarshalInner_object {V : Type} (elem : JSON → Option V) (enc : V → JSON)
    (m : GoMap V) (hwf : GoMap.WF m) (helem : ∀ kv ∈ m, elem (enc kv.2) = some kv.2) :
    unmarshalInner elem (.object (m.map fun kv => (kv.1, enc kv.2))) = some m := by
  simp [unmarshalInner, unmarshalMap_object elem enc m hwf helem]

theorem unmarshalSlice_array {V : Type} (elem : JSON → Option V) (enc : V → JSON)
    (l : List V) (helem : ∀ x ∈ l, elem (enc x) = some x) :
    unmarshalSlice elem [] (.array (l.map enc)) = some l := by
  show (l.map enc).mapM elem = some l
  induction l with
  | nil => rfl
  | cons x l ih =>
    rw [List.map_cons, List.mapM_cons, helem x (by simp),
      ih fun y hy => helem y (by simp [hy])]
    rfl

theorem unmarshalMatch_marshalMatch (m : Match)
    (h : ∀ odds, m.Odds = some odds → GoMap.WF odds) :
    unmarshalMatch (marshalMatch m) = some m := by
  obtain ⟨name, time, odds⟩ := m
  have f1 : fieldIs "match" "match" = true := by decide
  have f2 : fieldIs "match" "time" = false := by decide
  have f3 : fieldIs "time" "time" = true := by decide
  have f4 : fieldIs "match" "odds" = false := by decide
  have f5 : fieldIs "time" "odds" = false := by decide
  have f6 : fieldIs "odds" "odds" = true := by decide
  cases odds with
  | none =>
    simp [unmarshalMatch, marshalMatch, marshalOdds, unmarshalString, unmarshalMap,
      f1, f2, f3, f4, f5, f6]
  | some o =>
    have ho := unmarshalMap_object (unmarshalString "") JSON.string o (h o rfl)
      (fun kv _ => rfl)
    simp [unmarshalMatch, marshalMatch, marshalOdds, unmarshalString,
      f1, f2, f3, f4, f5, f6, ho]

theorem oddsOf_mkMatch (ps : List Participant) (ev : RawEvent) (n : String) :
    (mkMatch ps ev).oddsOf n =
      ((ps.filter fun p => HasPrefix p.ID ev.ID && p.NA == n).getLast?).map
        fun p => p.OD := by
  rw [← get_buildOdds]
  rfl

theorem mkMatch_mem_lookup3 (events : List RawEvent) (ps : List Participant) (E : RawEvent)
    (hE : E ∈ events) : mkMatch ps E ∈ lookup3 (join events ps) E.L1 E.L3 E.L2 := by
  rw [lookup3_join]
  exact List.mem_map.mpr ⟨E, List.mem_filter.mpr ⟨hE, by simp⟩, rfl⟩

/-- C1, as stated, fails in both directions.  With the event "1" and the
participants "1-1" and "1-2", both named "A", of odds 1.5 and 2.0, the first one's ID
has the event's ID as a prefix, yet "A" is mapped to 2.0, not to its odds.  With the
participants "1-1" and "2-1", both named "A" and of odds 1.5, the odds mapping maps the
second one's name to its odds, yet its ID does not have the event's ID as a prefix. -/
theorem odds_iff_idPrefix_refuted :
    (scenarioEvent ∈ [scenarioEvent] ∧ scenarioA ∈ [scenarioA, rivalA] ∧
      HasPrefix scenarioA.ID scenarioEvent.ID = true ∧
      (mkMatch [scenarioA, rivalA] scenarioEvent).oddsOf scenarioA.NA = some "2.0" ∧
      ¬ ((mkMatch [scenarioA, rivalA] scenarioEvent).oddsOf scenarioA.NA =
          some scenarioA.OD ↔ HasPrefix scenarioA.ID scenarioEvent.ID = true)) ∧
    (strangerA ∈ [scenarioA, strangerA] ∧
      HasPrefix strangerA.ID scenarioEvent.ID = false ∧
      (mkMatch [scenarioA, strangerA] scenarioEvent).oddsOf strangerA.NA =
        some strangerA.OD ∧
      ¬ ((mkMatch [scenarioA, strangerA] scenarioEvent).oddsOf strangerA.NA =
          some strangerA.OD ↔ HasPrefix strangerA.ID scenarioEvent.ID = true)) := by
  decide

/-- C1, amended: for every event E of the events and participant P of the
participants, the Match built for E is stored in the hierarchy under E's labels; its
odds mapping maps P's name to P's odds iff the last participant in input order that
has P's name and an ID prefixed by E's ID exists and has P's odds; and when no other
participant has P's name, iff P's ID has E's ID as a literal prefix. -/
theorem odds_iff_last_writer (events : List RawEvent) (ps : List Participant)
    (E : RawEvent) (P : Participant) (hE : E ∈ events) (hP : P ∈ ps) :
    mkMatch ps E ∈ lookup3 (join events ps) E.L1 E.L3 E.L2 ∧
    ((mkMatch ps E).oddsOf P.NA = some P.OD ↔
      ∃ Q, (ps.filter fun q => HasPrefix q.ID E.ID && q.NA == P.NA).getLast? = some Q ∧
        Q.OD = P.OD) ∧
    ((∀ Q ∈ ps, Q.NA = P.NA → Q = P) →
      ((mkMatch ps E).oddsOf P.NA = some P.OD ↔ HasPrefix P.ID E.ID = true)) := by
  refine ⟨mkMatch_mem_lookup3 events ps E hE, ?_, ?_⟩
  · rw [oddsOf_mkMatch]
    cases (ps.filter fun q => HasPrefix q.ID E.ID && q.NA == P.NA).getLast? <;> simp
  · intro huniq
    rw [oddsOf_mkMatch]
    constructor
    · intro h
      rcases hl : (ps.filter fun q => HasPrefix q.ID E.ID && q.NA == P.NA).getLast? with _ | Q
      · rw [hl] at h
        simp at h
      · have hQ := List.mem_of_getLast?_eq_some hl
        rw [List.mem_filter] at hQ
        have hQ2 : HasPrefix Q.ID E.ID = true ∧ Q.NA = P.NA := by simpa using hQ.2
        rw [huniq Q hQ.1 hQ2.2] at hQ2
        exact hQ2.1
    · intro hpre
      have hmem : P ∈ ps.filter fun q => HasPrefix q.ID E.ID && q.NA == P.NA :=
        List.mem_filter.mpr ⟨hP, by simp [hpre]⟩
      rcases hl : (ps.filter fun q => HasPrefix q.ID E.ID && q.NA == P.NA).getLast? with _ | Q
      · rw [List.getLast?_eq_none_iff] at hl
        rw [hl] at hmem
        simp at hmem
      · have hQ := List.mem_of_getLast?_eq_some hl
        rw [List.mem_filter] at hQ
        have hQ2 : HasPrefix Q.ID E.ID = true ∧ Q.NA = P.NA := by simpa using hQ.2
        rw [hl, huniq Q hQ.1 hQ2.2]
        rfl

/-- C1 witness: the scenario's event and its second participant, whose name no other
participant has. -/
theorem odds_iff_last_writer_witness :
    scenarioEvent ∈ [scenarioEvent] ∧ scenarioB ∈ [scenarioA, scenarioB] ∧
    (∀ Q ∈ [scenarioA, scenarioB], Q.NA = scenarioB.NA → Q = scenarioB) ∧
    (mkMatch [scenarioA, scenarioB] scenarioEvent ∈
      lookup3 (join [scenarioEvent] [scenarioA, scenarioB])
        scenarioEvent.L1 scenarioEvent.L3 scenarioEvent.L2 ∧
    ((mkMatch [scenarioA, scenarioB] scenarioEvent).oddsOf scenarioB.NA =
        some scenarioB.OD ↔
      ∃ Q, ([scenarioA, scenarioB].filter fun q =>
          HasPrefix q.ID scenarioEvent.ID && q.NA == scenarioB.NA).getLast? = some Q ∧
        Q.OD = scenarioB.OD) ∧
    ((∀ Q ∈ [scenarioA, scenarioB], Q.NA = scenarioB.NA → Q = scenarioB) →
      ((mkMatch [scenarioA, scenarioB] scenarioEvent).oddsOf scenarioB.NA =
          some scenarioB.OD ↔
        HasPrefix scenarioB.ID scenarioEvent.ID = true))) :=
  ⟨by decide, by decide, by decide,
    odds_iff_last_writer [scenarioEvent] [scenarioA, scenarioB] scenarioEvent scenarioB
      (by decide) (by decide)⟩

/-- C2: the sequence stored at `result[s][c][t]` is the sub-list of the events with
`L1 = s`, `L3 = c` and `L2 = t`, in input order, each mapped to its Match, whose name
is the event's `NA` and whose time is the event's `SS`; and the hierarchy holds as
many Matches as there are events. -/
theorem lookup3_is_filtered_events (events : List RawEvent) (ps : List Participant) :
    (∀ s c t, lookup3 (join events ps) s c t =
      (events.filter fun e => e.L1 = s ∧ e.L3 = c ∧ e.L2 = t).map (mkMatch ps)) ∧
    (∀ e, (mkMatch ps e).MatchName = e.NA ∧ (mkMatch ps e).Time = e.SS) ∧
    totalMatches (join events ps) = events.length :=
  ⟨fun s c t => lookup3_join events ps s c t, fun _ => ⟨rfl, rfl⟩,
    totalMatches_join events ps⟩

/-- C3: the keys of the hierarchy are distinct and are exactly the `L1` values of the
events; the keys of `result[s]` are distinct and are exactly the `L3` values of the
events with `L1 = s`; the keys of `result[s][c]` are distinct and are exactly the `L2`
values of the events with `L1 = s` and `L3 = c`; and no key maps to an empty map or to
an empty sequence. -/
theorem keys_are_labels (events : List RawEvent) (ps : List Participant) :
    ((GoMap.keys (join events ps)).Nodup ∧
      ∀ s, s ∈ GoMap.keys (join events ps) ↔ ∃ e ∈ events, e.L1 = s) ∧
    (∀ s, (GoMap.keys (lookup1 (join events ps) s)).Nodup ∧
      ∀ c, c ∈ GoMap.keys (lookup1 (join events ps) s) ↔
        ∃ e ∈ events, e.L1 = s ∧ e.L3 = c) ∧
    (∀ s c, (GoMap.keys (lookup2 (join events ps) s c)).Nodup ∧
      ∀ t, t ∈ GoMap.keys (lookup2 (join events ps) s c) ↔
        ∃ e ∈ events, e.L1 = s ∧ e.L3 = c ∧ e.L2 = t) ∧
    (∀ s m, GoMap.get (join events ps) s = some m → m ≠ []) ∧
    (∀ s c m, GoMap.get (lookup1 (join events ps) s) c = some m → m ≠ []) ∧
    (∀ s c t l, GoMap.get (lookup2 (join events ps) s c) t = some l → l ≠ []) := by
  obtain ⟨h0, h1, h2⟩ := hwf_join events ps
  refine ⟨⟨GoMap.nodup_keys h0, keys1_join events ps⟩,
    fun s => ⟨GoMap.nodup_keys (h1 s), keys2_join events ps s⟩,
    fun s c => ⟨GoMap.nodup_keys (h2 s c), keys3_join events ps s c⟩, ?_, ?_, ?_⟩
  · intro s m hm
    obtain ⟨e, he, hs⟩ := (keys1_join events ps s).mp
      ((GoMap.mem_keys_iff_get _ _).mpr ⟨m, hm⟩)
    have hk := (keys2_join events ps s e.L3).mpr ⟨e, he, hs, rfl⟩
    have hl : lookup1 (join events ps) s = m := by simp [lookup1, hm]
    rw [hl] at hk
    exact ne_nil_of_mem_keys hk
  · intro s c m hm
    obtain ⟨e, he, hs, hc⟩ := (keys2_join events ps s c).mp
      ((GoMap.mem_keys_iff_get _ _).mpr ⟨m, hm⟩)
    have hk := (keys3_join events ps s c e.L2).mpr ⟨e, he, hs, hc, rfl⟩
    have hl : lookup2 (join events ps) s c = m := by simp [lookup2, hm]
    rw [hl] at hk
    exact ne_nil_of_mem_keys hk
  · intro s c t l hm
    obtain ⟨e, he, hs, hc, ht⟩ := (keys3_join events ps s c t).mp
      ((GoMap.mem_keys_iff_get _ _).mpr ⟨l, hm⟩)
    have hl : lookup3 (join events ps) s c t = l := by simp [lookup3, hm]
    rw [lookup3_join] at hl
    intro hnil
    rw [hnil] at hl
    have hmem : e ∈ events.filter fun e => e.L1 = s ∧ e.L3 = c ∧ e.L2 = t :=
      List.mem_filter.mpr ⟨he, by simp [hs, hc, ht]⟩
    rw [List.map_eq_nil_iff.mp hl] at hmem
    simp at hmem

/-- C3 witness: the scenario of one event and two participants. -/
theorem keys_are_labels_witness :
    GoMap.get (join [scenarioEvent] [scenarioA, scenarioB]) "Soccer" =
        some [("England", [("Premier", [mkMatch [scenarioA, scenarioB] scenarioEvent])])] ∧
      [("England", [("Premier", [mkMatch [scenarioA, scenarioB] scenarioEvent])])] ≠
        ([] : GoMap (GoMap (List Match))) :=
  ⟨rfl, (keys_are_labels [scenarioEvent] [scenarioA, scenarioB]).2.2.2.1 "Soccer" _ rfl⟩

/-- C4: when some participant named `n` has an ID prefixed by the event's ID, the odds
mapping of the event's Match has exactly one entry for `n`, and its value is the odds
of the last such participant in input order. -/
theorem last_write_wins (ps : List Participant) (E : RawEvent) (n : String)
    (h : ∃ p ∈ ps, p.NA = n ∧ HasPrefix p.ID E.ID = true) :
    ∃ odds q, (mkMatch ps E).Odds = some odds ∧ (GoMap.keys odds).count n = 1 ∧
      (ps.filter fun p => HasPrefix p.ID E.ID && p.NA == n).getLast? = some q ∧
      GoMap.get odds n = some q.OD := by
  obtain ⟨p, hp, hn, hpre⟩ := h
  have hmem : p ∈ ps.filter fun p => HasPrefix p.ID E.ID && p.NA == n :=
    List.mem_filter.mpr ⟨hp, by simp [hpre, hn]⟩
  rcases hl : (ps.filter fun p => HasPrefix p.ID E.ID && p.NA == n).getLast? with _ | q
  · rw [List.getLast?_eq_none_iff] at hl
    rw [hl] at hmem
    simp at hmem
  · have hget : GoMap.get (buildOdds ps E) n = some q.OD := by
      rw [get_buildOdds, hl]
      rfl
    refine ⟨buildOdds ps E, q, rfl, ?_, hl, hget⟩
    exact List.count_eq_one_of_mem (GoMap.nodup_keys (wf_buildOdds ps E))
      ((GoMap.mem_keys_iff_get _ _).mpr ⟨_, hget⟩)

/-- C4 witness: two participants named "A" under the event "1". -/
theorem last_write_wins_witness :
    (∃ p ∈ [scenarioA, rivalA],
      p.NA = "A" ∧ HasPrefix p.ID scenarioEvent.ID = true) ∧
    ∃ odds q, (mkMatch [scenarioA, rivalA] scenarioEvent).Odds =
        some odds ∧ (GoMap.keys odds).count "A" = 1 ∧
      ([scenarioA, rivalA].filter fun p =>
        HasPrefix p.ID scenarioEvent.ID && p.NA == "A").getLast? = some q ∧
      GoMap.get odds "A" = some q.OD :=
  ⟨⟨scenarioA, by decide, by decide, by decide⟩,
    last_write_wins [scenarioA, rivalA] scenarioEvent "A"
      ⟨scenarioA, by decide, by decide, by decide⟩⟩

/-- C5: an event of the list that no participant's ID is prefixed by still has its
Match in `result[E.L1][E.L3][E.L2]`, with name `E.NA`, time `E.SS` and an odds mapping
that is made and empty, not nil. -/
theorem no_participant_empty_odds (events : List RawEvent) (ps : List Participant)
    (E : RawEvent) (hE : E ∈ events) (h : ∀ p ∈ ps, HasPrefix p.ID E.ID = false) :
    ({ MatchName := E.NA, Time := E.SS, Odds := some GoMap.empty } : Match) ∈
      lookup3 (join events ps) E.L1 E.L3 E.L2 := by
  have hm := mkMatch_mem_lookup3 events ps E hE
  rw [mkMatch, buildOdds_of_unmatched ps E h] at hm
  exact hm

/-- C5 witness: the event "1" with one participant of
another event. -/
theorem no_participant_empty_odds_witness :
    scenarioEvent ∈ [scenarioEvent] ∧
    (∀ p ∈ [(⟨"PA", "2-1", "C", "1.1"⟩ : Participant)],
      HasPrefix p.ID scenarioEvent.ID = false) ∧
    ({ MatchName := scenarioEvent.NA, Time := scenarioEvent.SS,
        Odds := some GoMap.empty } : Match) ∈
      lookup3 (join [scenarioEvent] [⟨"PA", "2-1", "C", "1.1"⟩])
        scenarioEvent.L1 scenarioEvent.L3 scenarioEvent.L2 :=
  ⟨by decide, by decide,
    no_participant_empty_odds [scenarioEvent] [⟨"PA", "2-1", "C", "1.1"⟩] scenarioEvent
      (by decide) (by decide)⟩

/-- C6: on the scenario's event and its two participants the join returns exactly the
hierarchy with the one sport "Soccer", the one country "England", the one tournament
"Premier" and the one Match "A vs B" with odds A: 1.5 and B: 2.1. -/
theorem scenario_hierarchy :
    join [scenarioEvent] [scenarioA, scenarioB] =
      [("Soccer", [("England", [("Premier",
        [{ MatchName := "A vs B", Time := "LIVE 10'",
           Odds := some [("A", "1.5"), ("B", "2.1")] }])])])] := by
  rfl

/-- C10: prefix matching is not exclusive: with the events "1" and "12" and the
participant "12-1", whose ID both event IDs are a prefix of, the participant's name
and odds are in the odds mapping of both Matches. -/
theorem nested_ids_share_participant :
    HasPrefix "12-1" "1" = true ∧ HasPrefix "12-1" "12" = true ∧
    join [⟨"EV", "1", "A vs B", "Soccer", "Premier", "England", "LIVE"⟩,
        ⟨"EV", "12", "C vs D", "Soccer", "Premier", "England", "LIVE"⟩]
        [⟨"PA", "12-1", "C", "1.9"⟩] =
      [("Soccer", [("England", [("Premier",
        [{ MatchName := "A vs B", Time := "LIVE", Odds := some [("C", "1.9")] },
         { MatchName := "C vs D", Time := "LIVE", Odds := some [("C", "1.9")] }])])])] :=
  ⟨by decide, by decide, by rfl⟩

theorem unmarshal_marshal (H : Hierarchy) (h0 : GoMap.WF H)
    (h1 : ∀ e1 ∈ H, GoMap.WF e1.2 ∧ ∀ e2 ∈ e1.2, GoMap.WF e2.2 ∧
      ∀ e3 ∈ e2.2, ∀ x ∈ e3.2, ∀ o, x.Odds = some o → GoMap.WF o) :
    unmarshalHierarchy (marshalHierarchy H) = some (some H) := by
  refine unmarshalMap_object
    (unmarshalInner (unmarshalInner (unmarshalSlice unmarshalMatch [])))
    (fun m1 : GoMap (GoMap (List Match)) => JSON.object (m1.map fun c => (c.1,
      JSON.object (c.2.map fun t => (t.1, JSON.array (t.2.map marshalMatch))))))
    H h0 ?_
  intro e1 he1
  refine unmarshalInner_object (unmarshalInner (unmarshalSlice unmarshalMatch []))
    (fun m2 : GoMap (List Match) =>
      JSON.object (m2.map fun t => (t.1, JSON.array (t.2.map marshalMatch))))
    e1.2 (h1 e1 he1).1 ?_
  intro e2 he2
  refine unmarshalInner_object (unmarshalSlice unmarshalMatch [])
    (fun l : List Match => JSON.array (l.map marshalMatch))
    e2.2 ((h1 e1 he1).2 e2 he2).1 ?_
  intro e3 he3
  refine unmarshalSlice_array unmarshalMatch marshalMatch e3.2 ?_
  intro x hx
  exact unmarshalMatch_marshalMatch x (((h1 e1 he1).2 e2 he2).2 e3 he3 x hx)

theorem unmarshal_marshal_join (evs : List RawEvent) (ps : List Participant) :
    unmarshalHierarchy (marshalHierarchy (join evs ps)) = some (some (join evs ps)) := by
  obtain ⟨h0, h1, h2⟩ := hwf_join evs ps
  refine unmarshal_marshal _ h0 ?_
  rintro ⟨s, m1⟩ he1
  have g1 : lookup1 (join evs ps) s = m1 := by
    simp [lookup1, GoMap.get_of_mem h0 he1]
  have w1 : GoMap.WF m1 := g1 ▸ h1 s
  refine ⟨w1, ?_⟩
  rintro ⟨c, m2⟩ he2
  have g2 : lookup2 (join evs ps) s c = m2 := by
    simp [lookup2, g1, GoMap.get_of_mem w1 he2]
  have w2 : GoMap.WF m2 := g2 ▸ h2 s c
  refine ⟨w2, ?_⟩
  rintro ⟨t, l⟩ he3 x hx o ho
  have g3 : lookup3 (join evs ps) s c t = l := by
    simp [lookup3, g2, GoMap.get_of_mem w2 he3]
  rw [lookup3_join] at g3
  rw [← g3] at hx
  obtain ⟨e, _, hxe⟩ := List.mem_map.mp hx
  rw [← hxe] at ho
  have : buildOdds ps e = o := Option.some.inj ho
  rw [← this]
  exact wf_buildOdds ps e

theorem fetchAndBuild_eq_some {Body Item : Type} (u : Unmarshal Body Item)
    (resp : Response Body) (H : Hierarchy) (h : fetchAndBuild u resp = some H) :
    ∃ evs ps, H = join evs ps := by
  unfold fetchAndBuild at h
  split at h
  · exact Option.noConfusion h
  · split at h
    · exact Option.noConfusion h
    · split at h
      · exact Option.noConfusion h
      · exact ⟨_, _, (Option.some.inj h).symm⟩

/-- C7: the decode loop is item-wise best-effort.  The events are the items, in input
order, whose peek gives the type "EV" and whose decode as `RawEvent` succeeds, the
participants those whose peek gives "PA" and whose decode as `Participant` succeeds,
and every other item is dropped; an envelope that parses at the top level makes
`fetchAndBuild` return the join of the two lists; and a block of one well-formed
event, one malformed item and one well-formed participant, in any order, yields
exactly that event and that participant. -/
theorem decode_best_effort {Body Item : Type} (u : Unmarshal Body Item) :
    (∀ results, decodeLoop u results =
      (results.flatten.filterMap
          (fun item => if u.preview item = some "EV" then u.rawEvent item else none),
        results.flatten.filterMap
          (fun item => if u.preview item = some "PA" then u.participant item else none))) ∧
    (∀ body results, u.apiResponse body = some results →
      fetchAndBuild u (.http 200 body) =
        some (join (decodeLoop u results).1 (decodeLoop u results).2)) ∧
    (∀ e m p ev pa block,
      u.preview e = some "EV" → u.rawEvent e = some ev →
      u.preview p = some "PA" → u.participant p = some pa →
      (u.preview m = none ∨ (u.preview m = some "EV" ∧ u.rawEvent m = none) ∨
        (u.preview m = some "PA" ∧ u.participant m = none)) →
      block.Perm [e, m, p] → decodeLoop u [block] = ([ev], [pa])) := by
  refine ⟨decodeLoop_eq u, ?_, ?_⟩
  · intro body results h
    simp [fetchAndBuild, h]
  · intro e m p ev pa block he1 he2 hp1 hp2 hm hperm
    rw [decodeLoop_eq]
    have hmE : (if u.preview m = some "EV" then u.rawEvent m else none) = none := by
      rcases hm with h | h | h
      · simp [h]
      · simp [h.1, h.2]
      · simp [h.1]
    have hmP : (if u.preview m = some "PA" then u.participant m else none) = none := by
      rcases hm with h | h | h
      · simp [h]
      · simp [h.1]
      · simp [h.1, h.2]
    have h1 := hperm.filterMap
      (fun item => if u.preview item = some "EV" then u.rawEvent item else none)
    have h2 := hperm.filterMap
      (fun item => if u.preview item = some "PA" then u.participant item else none)
    simp only [List.filterMap_cons, List.filterMap_nil, he1, he2, hp1, hp2, hmE, hmP,
      if_true] at h1 h2
    have e1 : ¬ (some "PA" : Option String) = some "EV" := by decide
    have e2 : ¬ (some "EV" : Option String) = some "PA" := by decide
    simp only [e1, e2, if_false] at h1 h2
    simp only [List.flatten_cons, List.flatten_nil, List.append_nil]
    rw [List.perm_singleton.mp h1, List.perm_singleton.mp h2]

/-- C7 witness: the block of the participant, the malformed item
and the event of the scenario, decoded by `encoding/json`. -/
theorem decode_best_effort_witness :
    encodingJson.preview scenarioEventItem = some "EV" ∧
    encodingJson.rawEvent scenarioEventItem = some scenarioEvent ∧
    encodingJson.preview scenarioAItem = some "PA" ∧
    encodingJson.participant scenarioAItem = some scenarioA ∧
    (encodingJson.preview malformedItem = some "EV" ∧
      encodingJson.rawEvent malformedItem = none) ∧
    decodeLoop encodingJson [[scenarioAItem, malformedItem, scenarioEventItem]] =
      ([scenarioEvent], [scenarioA]) :=
  ⟨rfl, rfl, rfl, rfl, ⟨rfl, rfl⟩,
    (decode_best_effort encodingJson).2.2 scenarioEventItem malformedItem scenarioAItem
      scenarioEvent scenarioA [scenarioAItem, malformedItem, scenarioEventItem]
      rfl rfl rfl rfl (Or.inr (Or.inl ⟨rfl, rfl⟩))
      (List.reverse_perm [scenarioEventItem, malformedItem, scenarioAItem])⟩

/-- C8: a refresh cycle whose request ends in a transport error, in a status other
than 200, or in a body whose envelope does not parse, makes `fetchAndBuild` return
nil, makes no call of `saveToRedis`, and leaves the state of Redis as it was, the
entry of the key `matches` included. -/
theorem failed_cycle_keeps_cache {Body Item : Type} (u : Unmarshal Body Item)
    (resp : Response Body) (setOk : Bool) (s : State)
    (h : resp = .transportError ∨
      ∃ status body, resp = .http status body ∧
        (status ≠ 200 ∨ u.apiResponse body = none)) :
    fetchAndBuild u resp = none ∧
    (refreshCycle u resp setOk s).saves = s.saves ∧
    (refreshCycle u resp setOk s).redis = s.redis ∧
    GoMap.get (refreshCycle u resp setOk s).redis redisKey = GoMap.get s.redis redisKey ∧
    refreshCycle u resp setOk s = s := by
  have hnone : fetchAndBuild u resp = none := by
    rcases h with h | ⟨status, body, h, hs | hb⟩
    · rw [h]
      rfl
    · rw [h]
      simp [fetchAndBuild, hs]
    · rw [h]
      by_cases hs : status = 200
      · simp [fetchAndBuild, hs, hb]
      · simp [fetchAndBuild, hs]
  have hcycle : refreshCycle u resp setOk s = s := by
    simp [refreshCycle, hnone]
  exact ⟨hnone, by rw [hcycle], by rw [hcycle], by rw [hcycle], hcycle⟩

/-- C8 witness: a response of status 503 on a Redis that
holds the hierarchy of the scenario. -/
theorem failed_cycle_keeps_cache_witness :
    ((Response.http 503 none : Response (Option JSON)) = .transportError ∨
      ∃ status body, (Response.http 503 none : Response (Option JSON)) = .http status body ∧
        (status ≠ 200 ∨ encodingJson.apiResponse body = none)) ∧
    fetchAndBuild encodingJson (.http 503 none) = none ∧
    (refreshCycle encodingJson (.http 503 none) true scenarioState).saves =
      scenarioState.saves ∧
    (refreshCycle encodingJson (.http 503 none) true scenarioState).redis =
      scenarioState.redis ∧
    GoMap.get (refreshCycle encodingJson (.http 503 none) true scenarioState).redis redisKey =
      GoMap.get scenarioState.redis redisKey ∧
    refreshCycle encodingJson (.http 503 none) true scenarioState = scenarioState :=
  ⟨Or.inr ⟨503, none, rfl, Or.inl (by decide)⟩,
    failed_cycle_keeps_cache encodingJson (.http 503 none) true scenarioState
      (Or.inr ⟨503, none, rfl, Or.inl (by decide)⟩)⟩

/-- C9: for every hierarchy that `fetchAndBuild` returns, decoding its encoding gives
the hierarchy back, and so does `loadFromRedis` after `saveToRedis` has stored it under
the key `matches`: the same keys at every level, the same Matches in the same order,
the same odds mappings. -/
theorem cache_round_trip {Body Item : Type} (u : Unmarshal Body Item)
    (resp : Response Body) (H : Hierarchy) (h : fetchAndBuild u resp = some H) :
    unmarshalHierarchy (marshalHierarchy H) = some (some H) ∧
    ∀ s, loadFromRedis (saveToRedis true redisKey H s) redisKey = some (some H) := by
  obtain ⟨evs, ps, rfl⟩ := fetchAndBuild_eq_some u resp H h
  refine ⟨unmarshal_marshal_join evs ps, fun s => ?_⟩
  simp [loadFromRedis, saveToRedis, GoMap.get_set, unmarshal_marshal_join]

/-- C9 witness: the hierarchy built from the envelope of the
scenario. -/
theorem cache_round_trip_witness :
    fetchAndBuild encodingJson (.http 200 (some scenarioEnvelope)) =
      some (join [scenarioEvent] [scenarioA]) ∧
    unmarshalHierarchy (marshalHierarchy (join [scenarioEvent] [scenarioA])) =
      some (some (join [scenarioEvent] [scenarioA])) ∧
    ∀ s, loadFromRedis (saveToRedis true redisKey (join [scenarioEvent] [scenarioA]) s)
      redisKey = some (some (join [scenarioEvent] [scenarioA])) :=
  ⟨rfl, cache_round_trip encodingJson (.http 200 (some scenarioEnvelope))
    (join [scenarioEvent] [scenarioA]) rfl⟩

end Kubo
